import Mathlib

/-!
Verification of the GoTuga turtle-graphics rasterizer and turtle-state API.

The Go sources are shallowly embedded: `float64` arithmetic is modelled by
exact real arithmetic (`ℝ`), Go `int` by `ℤ` (with Go's truncated division
`/` modelled by `Int.tdiv`), the mutable RGBA canvas by a total function
`ℤ × ℤ → C` for an abstract color type `C` (Go's `color.Color` is an
interface), and each drawing routine by the pixel set / buffer
transformation it performs.
-/

namespace GoTuga

/-- Go's `math.Round`: round to nearest integer, ties away from zero,
as used by `mapToPixel` (the result is immediately converted to `int`,
which is exact on an integral float). -/
noncomputable def goRound (x : ℝ) : ℤ :=
  if 0 ≤ x then ⌊x + 1 / 2⌋ else -⌊-x + 1 / 2⌋

/-- Spec-side definition, for the refinement claim about `mapToPixel`:
"round half away from zero", written directly as the nearest-integer
function that sends non-negative halves up and negative halves down. -/
noncomputable def roundHalfAwayFromZero (x : ℝ) : ℤ :=
  if 0 ≤ x then ⌊x + 1 / 2⌋ else ⌈x - 1 / 2⌉

/-- Source `mapToPixel`: map logical `(x, y)` (origin at canvas
center, +y up) to pixel coordinates:
`ix := int(math.Round(x + float64(t.W)/2))`,
`iy := int(math.Round(float64(t.H)/2 - y))`. -/
noncomputable def mapToPixel (W H : ℤ) (x y : ℝ) : ℤ × ℤ :=
  (goRound (x + (W : ℝ) / 2), goRound ((H : ℝ) / 2 - y))

/-- Source `clamp`. -/
def clamp (v lo hi : ℤ) : ℤ :=
  if v < lo then lo else if v > hi then hi else v

/-- The set of pixels written by `stampDisc` (as a predicate): for `r <= 0`
nothing is written; otherwise the disc center is mapped to pixel space,
an integer bounding box of radius `ceil r` is clamped to `[0, W-1] × [0, H-1]`,
and a pixel `(x, y)` of the box is written iff the squared distance of its
`+0.5`-offset center from the pixel-space center is at most `r * r`. -/
def stampDiscWrites (W H : ℤ) (cx cy r : ℝ) (p : ℤ × ℤ) : Prop :=
  0 < r ∧
  clamp ((mapToPixel W H cx cy).1 - ⌈r⌉) 0 (W - 1) ≤ p.1 ∧
  p.1 ≤ clamp ((mapToPixel W H cx cy).1 + ⌈r⌉) 0 (W - 1) ∧
  clamp ((mapToPixel W H cx cy).2 - ⌈r⌉) 0 (H - 1) ≤ p.2 ∧
  p.2 ≤ clamp ((mapToPixel W H cx cy).2 + ⌈r⌉) 0 (H - 1) ∧
  (((p.1 - (mapToPixel W H cx cy).1 : ℤ) : ℝ) + 0.5) *
      (((p.1 - (mapToPixel W H cx cy).1 : ℤ) : ℝ) + 0.5) +
    (((p.2 - (mapToPixel W H cx cy).2 : ℤ) : ℝ) + 0.5) *
      (((p.2 - (mapToPixel W H cx cy).2 : ℤ) : ℝ) + 0.5) ≤ r * r

open Classical in
/-- Effect of `stampDisc` on the canvas: written pixels get the stamp
color (`canvas.Set`), the rest keep their old value. -/
noncomputable def stampDiscBuf {C : Type} (W H : ℤ) (cx cy r : ℝ) (col : C)
    (buf : ℤ × ℤ → C) : ℤ × ℤ → C :=
  fun p => if stampDiscWrites W H cx cy r p then col else buf p

open Classical in
/-- The centers at which `drawSegment` stamps discs: if the Euclidean
distance (`math.Hypot`) is zero a single disc at the start point, else
`steps := int(math.Ceil(dist)) + 1` and one stamp at parameter `i / steps`
for every `i` with `0 <= i <= steps`. -/
noncomputable def drawSegmentStamps (x0 y0 x1 y1 : ℝ) : List (ℝ × ℝ) :=
  let dx := x1 - x0
  let dy := y1 - y0
  let dist := Real.sqrt (dx * dx + dy * dy)
  if dist = 0 then [(x0, y0)]
  else
    let steps : ℤ := ⌈dist⌉ + 1
    (List.range (steps + 1).toNat).map fun (i : ℕ) =>
      let tt := (i : ℝ) / (steps : ℝ)
      (x0 + tt * dx, y0 + tt * dy)

/-- Effect of `drawSegment` on the canvas: stamp a disc of radius
`width / 2` at every sample center, in loop order. -/
noncomputable def drawSegmentBuf {C : Type} (W H : ℤ) (x0 y0 x1 y1 width : ℝ)
    (col : C) (buf : ℤ × ℤ → C) : ℤ × ℤ → C :=
  (drawSegmentStamps x0 y0 x1 y1).foldl
    (fun b c => stampDiscBuf W H c.1 c.2 (width / 2) col b) buf

/-- The scanline crossing test of `drawPolygon`:
`(y0 <= y && y1 > y) || (y1 <= y && y0 > y)`. -/
def edgeCrosses (y0 y1 y : ℤ) : Bool :=
  (decide (y0 ≤ y) && decide (y < y1)) || (decide (y1 ≤ y) && decide (y < y0))

/-- The crossing x-coordinates collected by `drawPolygon` for scanline `y`:
each edge `pts[i] -> pts[(i+1) % len pts]` that passes the crossing test
contributes `x0 + (y-y0)*(x1-x0)/(y1-y0)` (Go integer division truncates
toward zero, i.e. `Int.tdiv`). -/
def rowIntersections (pts : List (ℤ × ℤ)) (y : ℤ) : List ℤ :=
  (pts.zip (pts.rotate 1)).filterMap fun e =>
    if edgeCrosses e.1.2 e.2.2 y then
      some (e.1.1 + Int.tdiv ((y - e.1.2) * (e.2.1 - e.1.1)) (e.2.2 - e.1.2))
    else none

/-- Insert into a sorted list, ascending. -/
def insertSorted (a : ℤ) : List ℤ → List ℤ
  | [] => [a]
  | b :: t => if a ≤ b then a :: b :: t else b :: insertSorted a t

/-- Ascending sort, modelling `sort.Ints` (on integers any correct
ascending sort produces the same list: the sorted permutation is unique). -/
def sortInts : List ℤ → List ℤ
  | [] => []
  | a :: t => insertSorted a (sortInts t)

/-- The pairs `(intersections[i], intersections[i+1])` for
`i = 0, 2, 4, ...` with `i+1 < len` — the spans filled by `drawPolygon`;
a trailing unpaired element is dropped. -/
def spanPairs : List ℤ → List (ℤ × ℤ)
  | a :: b :: t => (a, b) :: spanPairs t
  | _ => []

/-- The mask computed by `drawPolygon`: pixel `(x, y)` is marked iff it is
inside the mask bounds `[0,W) × [0,H)` (the scanline loop covers `[0,H)`
and `SetAlpha` ignores out-of-bounds x) and some span
`[intersections[i], intersections[i+1]]` of its row covers `x`
(the fill loop `for x := a; x <= b; x++` is inclusive at both ends). -/
def drawPolygonMask (W H : ℤ) (pts : List (ℤ × ℤ)) (p : ℤ × ℤ) : Bool :=
  decide (0 ≤ p.1) && decide (p.1 < W) && decide (0 ≤ p.2) && decide (p.2 < H) &&
  (spanPairs (sortInts (rowIntersections pts p.2))).any
    (fun s => decide (s.1 ≤ p.1) && decide (p.1 ≤ s.2))

/-- Effect of `drawPolygon` on the canvas: masked pixels get the fill
color (`draw.DrawMask` with an opaque uniform source), others are kept. -/
def drawPolygonBuf {C : Type} (W H : ℤ) (pts : List (ℤ × ℤ)) (col : C)
    (buf : ℤ × ℤ → C) : ℤ × ℤ → C :=
  fun p => if drawPolygonMask W H pts p then col else buf p

/-- The square fill path of the convex-polygon test case. -/
def squarePts : List (ℤ × ℤ) := [(10, 10), (110, 10), (110, 110), (10, 110)]

/-- The `Turtle` struct: canvas plus movement/pen/fill state, with the
color interface `color.Color` abstracted to a type parameter `C`. -/
structure TurtleState (C : Type) where
  canvas : ℤ × ℤ → C
  W : ℤ
  H : ℤ
  bg : C
  x : ℝ
  y : ℝ
  headingDeg : ℝ
  penDown : Bool
  penColor : C
  penWidth : ℝ
  filling : Bool
  fillColor : C
  fillPath : List (ℤ × ℤ)

/-- The `snapshot` struct: position and heading. -/
structure Snapshot where
  x : ℝ
  y : ℝ
  headingDeg : ℝ

/-- Source `stateSnapshot`. -/
def stateSnapshot {C : Type} (t : TurtleState C) : Snapshot :=
  ⟨t.x, t.y, t.headingDeg⟩

/-- Source `restoreSnapshot`. -/
def restoreSnapshot {C : Type} (t : TurtleState C) (s : Snapshot) : TurtleState C :=
  { t with x := s.x, y := s.y, headingDeg := s.headingDeg }

open Classical in
/-- Source `recordFillVertex`: append the pixel image of the point to the fill
path if filling is active. -/
noncomputable def recordFillVertex {C : Type} (t : TurtleState C) (x y : ℝ) :
    TurtleState C :=
  if t.filling then
    { t with fillPath := t.fillPath ++ [mapToPixel t.W t.H x y] }
  else t

/-- Source `PenUp`. -/
def PenUp {C : Type} (t : TurtleState C) : TurtleState C :=
  { t with penDown := false }

/-- Source `PenDown`. -/
def PenDownOp {C : Type} (t : TurtleState C) : TurtleState C :=
  { t with penDown := true }

/-- Source `Left`. -/
def Left {C : Type} (t : TurtleState C) (deg : ℝ) : TurtleState C :=
  { t with headingDeg := t.headingDeg + deg }

/-- Source `Forward`: compute the target from heading, draw the
segment when the pen is down, record a fill vertex, move. -/
noncomputable def Forward {C : Type} (t : TurtleState C) (d : ℝ) : TurtleState C :=
  let rad := t.headingDeg * Real.pi / 180
  let nx := t.x + d * Real.cos rad
  let ny := t.y + d * Real.sin rad
  let t1 := if t.penDown then
      { t with canvas := drawSegmentBuf t.W t.H t.x t.y nx ny t.penWidth t.penColor t.canvas }
    else t
  let t2 := recordFillVertex t1 nx ny
  { t2 with x := nx, y := ny }

/-- Source `Backward`: `Backward(d)` is `Forward(-d)`. -/
noncomputable def Backward {C : Type} (t : TurtleState C) (d : ℝ) : TurtleState C :=
  Forward t (-d)

/-- Source `GoTo`. -/
noncomputable def GoTo {C : Type} (t : TurtleState C) (x y : ℝ) : TurtleState C :=
  let t1 := if t.penDown then
      { t with canvas := drawSegmentBuf t.W t.H t.x t.y x y t.penWidth t.penColor t.canvas }
    else t
  let t2 := recordFillVertex t1 x y
  { t2 with x := x, y := y }

/-- Apply `f` a number of times, in loop order (`repApply f n a`
runs the body `n` times starting from `a`). -/
def repApply {α : Type} (f : α → α) : Nat → α → α
  | 0, a => a
  | n + 1, a => repApply f n (f a)

/-- Source `Rect`: trace the perimeter, then restore the
starting snapshot. -/
noncomputable def Rect {C : Type} (t : TurtleState C) (w h : ℝ) : TurtleState C :=
  let orig := stateSnapshot t
  let u := Forward t w
  let u := Left u 90
  let u := Forward u h
  let u := Left u 90
  let u := Forward u w
  let u := Left u 90
  let u := Forward u h
  restoreSnapshot u orig

/-- Source `Polygon`: for `n < 3` do nothing, else walk `n`
sides turning `360 / n` degrees left each time, then restore. -/
noncomputable def Polygon {C : Type} (t : TurtleState C) (n : ℤ) (side : ℝ) :
    TurtleState C :=
  if n < 3 then t
  else
    let orig := stateSnapshot t
    let turn := 360 / (n : ℝ)
    restoreSnapshot (repApply (fun u => Left (Forward u side) turn) n.toNat t) orig

open Classical in
/-- Source `Circle`: approximate by `segments` chords
(`segments := int(math.Max(12, circ/3))`, a non-negative value, so the
Go `int` conversion is a floor), then restore. -/
noncomputable def Circle {C : Type} (t : TurtleState C) (r : ℝ) : TurtleState C :=
  let circ := 2 * Real.pi * |r|
  let segments : ℤ := ⌊max 12 (circ / 3)⌋
  let angle := 360 / (segments : ℝ)
  let orig := stateSnapshot t
  let stepLen := circ / (segments : ℝ)
  let turn := if r < 0 then -angle else angle
  restoreSnapshot (repApply (fun u => Left (Forward u stepLen) turn) segments.toNat t) orig

/-- Source `BeginFill`. -/
def BeginFill {C : Type} (t : TurtleState C) : TurtleState C :=
  { t with filling := true, fillPath := [] }

/-- Source `EndFill`: with filling inactive or fewer than 3
recorded vertices, just reset the fill state; otherwise close the path
(append the first vertex when it differs from the last), fill it, reset. -/
def EndFill {C : Type} (t : TurtleState C) : TurtleState C :=
  if t.filling = false ∨ t.fillPath.length < 3 then
    { t with filling := false, fillPath := [] }
  else
    let fp := if t.fillPath.headD (0, 0) ≠ t.fillPath.getLastD (0, 0) then
        t.fillPath ++ [t.fillPath.headD (0, 0)]
      else t.fillPath
    { t with canvas := drawPolygonBuf t.W t.H fp t.fillColor t.canvas,
             filling := false, fillPath := [] }

/-- Fields of the turtle state that the shape helpers and pen-up moves
never touch: canvas dimensions, background, pen and fill settings. -/
def framePreserved {C : Type} (t u : TurtleState C) : Prop :=
  u.W = t.W ∧ u.H = t.H ∧ u.bg = t.bg ∧ u.penDown = t.penDown ∧
  u.penColor = t.penColor ∧ u.penWidth = t.penWidth ∧
  u.filling = t.filling ∧ u.fillColor = t.fillColor

/-- Frame condition for the shape helpers: settings preserved, and the
fill path untouched when filling is inactive. -/
def shapeFrame {C : Type} (t u : TurtleState C) : Prop :=
  framePreserved t u ∧ (t.filling = false → u.fillPath = t.fillPath)

/-- A concrete turtle state over `Bool` colors (pen up, not filling),
used to instantiate hypotheses at concrete inputs. -/
def sampleTurtle : TurtleState Bool where
  canvas := fun _ => false
  W := 10
  H := 10
  bg := false
  x := 0
  y := 0
  headingDeg := 0
  penDown := false
  penColor := true
  penWidth := 2
  filling := false
  fillColor := false
  fillPath := []

/-! ## Theorems -/

lemma edgeCrosses_eq_true_iff (y0 y1 y : ℤ) :
    edgeCrosses y0 y1 y = true ↔ (y0 ≤ y ∧ y < y1) ∨ (y1 ≤ y ∧ y < y0) := by
  unfold edgeCrosses
  simp only [Bool.or_eq_true, Bool.and_eq_true, decide_eq_true_eq]

/-- C3: the per-row crossing test accepts an edge iff exactly one endpoint's
y-coordinate is `≤ y` (hence the other is `> y`); consequently horizontal
edges contribute no crossings, and the interpolation divisor `y1 - y0` is
nonzero whenever the division is executed (the test passed). -/
theorem edgeCrosses_halfopen (y0 y1 y : ℤ) :
    (edgeCrosses y0 y1 y = true ↔ Xor' (y0 ≤ y) (y1 ≤ y)) ∧
    (y0 = y1 → edgeCrosses y0 y1 y = false) ∧
    (edgeCrosses y0 y1 y = true → y1 - y0 ≠ 0) := by
  refine ⟨?_, ?_, ?_⟩
  · rw [edgeCrosses_eq_true_iff, Xor']
    omega
  · intro h
    rw [Bool.eq_false_iff]
    intro hc
    rw [edgeCrosses_eq_true_iff] at hc
    omega
  · intro hc
    rw [edgeCrosses_eq_true_iff] at hc
    omega

/-- Witness for `edgeCrosses_halfopen`: the edge `(·,0)-(·,5)` crosses
scanline 2 with a nonzero divisor, and the horizontal edge at height 3
contributes no crossing. -/
theorem edgeCrosses_halfopen_witness :
    (edgeCrosses 0 5 2 = true ↔ Xor' ((0 : ℤ) ≤ 2) ((5 : ℤ) ≤ 2)) ∧
    edgeCrosses 3 3 7 = false ∧ ((5 : ℤ) - 0 ≠ 0) :=
  ⟨(edgeCrosses_halfopen 0 5 2).1, (edgeCrosses_halfopen 3 3 7).2.1 rfl,
   (edgeCrosses_halfopen 0 5 2).2.2 (by decide)⟩

lemma rowIntersections_square_inside (y : ℤ) (h1 : 10 ≤ y) (h2 : y < 110) :
    rowIntersections squarePts y = [110, 10] := by
  have e1 : edgeCrosses 10 10 y = false := by
    rw [Bool.eq_false_iff]; intro hc; rw [edgeCrosses_eq_true_iff] at hc; omega
  have e2 : edgeCrosses 10 110 y = true := by
    rw [edgeCrosses_eq_true_iff]; omega
  have e3 : edgeCrosses 110 110 y = false := by
    rw [Bool.eq_false_iff]; intro hc; rw [edgeCrosses_eq_true_iff] at hc; omega
  have e4 : edgeCrosses 110 10 y = true := by
    rw [edgeCrosses_eq_true_iff]; omega
  have hz : squarePts.zip (squarePts.rotate 1) =
      [((10, 10), (110, 10)), ((110, 10), (110, 110)),
       ((110, 110), (10, 110)), ((10, 110), (10, 10))] := rfl
  unfold rowIntersections
  rw [hz]
  simp only [List.filterMap_cons, e1, e2, e3, e4, if_true, if_false,
    List.filterMap_nil]
  norm_num

lemma rowIntersections_square_outside (y : ℤ) (h : y < 10 ∨ 110 ≤ y) :
    rowIntersections squarePts y = [] := by
  have e1 : edgeCrosses 10 10 y = false := by
    rw [Bool.eq_false_iff]; intro hc; rw [edgeCrosses_eq_true_iff] at hc; omega
  have e2 : edgeCrosses 10 110 y = false := by
    rw [Bool.eq_false_iff]; intro hc; rw [edgeCrosses_eq_true_iff] at hc; omega
  have e3 : edgeCrosses 110 110 y = false := by
    rw [Bool.eq_false_iff]; intro hc; rw [edgeCrosses_eq_true_iff] at hc; omega
  have e4 : edgeCrosses 110 10 y = false := by
    rw [Bool.eq_false_iff]; intro hc; rw [edgeCrosses_eq_true_iff] at hc; omega
  have hz : squarePts.zip (squarePts.rotate 1) =
      [((10, 10), (110, 10)), ((110, 10), (110, 110)),
       ((110, 110), (10, 110)), ((10, 110), (10, 10))] := rfl
  unfold rowIntersections
  rw [hz]
  simp [e1, e2, e3, e4]

lemma drawPolygonMask_square (x y : ℤ) :
    drawPolygonMask 200 200 squarePts (x, y) = true ↔
      10 ≤ x ∧ x ≤ 110 ∧ 10 ≤ y ∧ y < 110 := by
  unfold drawPolygonMask
  by_cases hy : 10 ≤ y ∧ y < 110
  · rw [show ((x, y) : ℤ × ℤ).2 = y from rfl,
      rowIntersections_square_inside y hy.1 hy.2]
    rw [show sortInts [110, 10] = [10, 110] from rfl]
    rw [show spanPairs [10, 110] = [(10, 110)] from rfl]
    simp only [List.any_cons, List.any_nil, Bool.or_false, Bool.and_eq_true,
      decide_eq_true_eq]
    omega
  · rw [show ((x, y) : ℤ × ℤ).2 = y from rfl,
      rowIntersections_square_outside y (by omega)]
    rw [show spanPairs (sortInts []) = [] from rfl]
    simp only [List.any_nil, Bool.and_false, Bool.false_eq_true, false_iff]
    omega

/-- C1 counterexample: filling the square with a canvas of 200×200 sets
pixel `(110, 50)` to the fill color although its column 110 does not lie
in `[10, 110)` — the span fill is inclusive of its right intersection. -/
theorem drawPolygon_square_over_right_edge :
    drawPolygonBuf 200 200 squarePts true (fun _ => false) (110, 50) = true ∧
    ¬ ((110 : ℤ) < 110) := by
  constructor
  · decide
  · decide

/-- C1 (amended): filling the square with pixel corners
`(10,10),(110,10),(110,110),(10,110)` on a 200×200 canvas sets every pixel
with column in `[10, 110]` and row in `[10, 110)` to the fill color, and
changes no pixel outside that set. -/
theorem drawPolygon_square_fill {C : Type} (col : C) (buf : ℤ × ℤ → C)
    (x y : ℤ) :
    (10 ≤ x ∧ x ≤ 110 ∧ 10 ≤ y ∧ y < 110 →
      drawPolygonBuf 200 200 squarePts col buf (x, y) = col) ∧
    (¬ (10 ≤ x ∧ x ≤ 110 ∧ 10 ≤ y ∧ y < 110) →
      drawPolygonBuf 200 200 squarePts col buf (x, y) = buf (x, y)) := by
  unfold drawPolygonBuf
  constructor
  · intro h
    rw [if_pos ((drawPolygonMask_square x y).mpr h)]
  · intro h
    rw [if_neg]
    intro hm
    exact h ((drawPolygonMask_square x y).mp hm)

/-- Witness for `drawPolygon_square_fill`: interior pixel `(50, 50)` is
set to the fill color and exterior pixel `(0, 0)` keeps its old value. -/
theorem drawPolygon_square_fill_witness :
    drawPolygonBuf 200 200 squarePts true (fun _ => false) (50, 50) = true ∧
    drawPolygonBuf 200 200 squarePts true (fun _ => false) (0, 0) =
      (fun (_ : ℤ × ℤ) => false) ((0 : ℤ), (0 : ℤ)) :=
  ⟨(drawPolygon_square_fill true (fun _ => false) 50 50).1 (by decide),
   (drawPolygon_square_fill true (fun _ => false) 0 0).2 (by decide)⟩

lemma goRound_eq_roundHalfAwayFromZero (x : ℝ) :
    goRound x = roundHalfAwayFromZero x := by
  unfold goRound roundHalfAwayFromZero
  by_cases h : 0 ≤ x
  · rw [if_pos h, if_pos h]
  · rw [if_neg h, if_neg h, show -x + 1 / 2 = -(x - 1 / 2) by ring,
      Int.floor_neg, neg_neg]

/-- C5: `mapToPixel` is the total pure function
`(x, y) ↦ (round(x + W/2), round(H/2 - y))`, where `round` is the
round-half-away-from-zero policy of `math.Round`; it is defined for all
real inputs and cannot fail. -/
theorem mapToPixel_formula (W H : ℤ) (x y : ℝ) :
    mapToPixel W H x y =
      (roundHalfAwayFromZero (x + (W : ℝ) / 2),
       roundHalfAwayFromZero ((H : ℝ) / 2 - y)) := by
  unfold mapToPixel
  rw [goRound_eq_roundHalfAwayFromZero, goRound_eq_roundHalfAwayFromZero]

lemma goRound_intCast (n : ℤ) : goRound (n : ℝ) = n := by
  unfold goRound
  by_cases h : (0 : ℝ) ≤ (n : ℝ)
  · rw [if_pos h, Int.floor_int_add, show ⌊(1 / 2 : ℝ)⌋ = 0 by norm_num,
      add_zero]
  · rw [if_neg h, show -(n : ℝ) + 1 / 2 = ((-n : ℤ) : ℝ) + 1 / 2 by push_cast; ring,
      Int.floor_int_add, show ⌊(1 / 2 : ℝ)⌋ = 0 by norm_num, add_zero, neg_neg]

/-- C6: for every in-bounds pixel `(col, row)`, `mapToPixel` applied to the
inverse-transformed logical coordinates `(col - W/2, H/2 - row)` recovers
exactly `(col, row)` — the round trip pixel → logical → pixel is the
identity on the pixel grid. -/
theorem mapToPixel_roundtrip (W H col row : ℤ) (h1 : 0 ≤ col) (h2 : col < W)
    (h3 : 0 ≤ row) (h4 : row < H) :
    mapToPixel W H ((col : ℝ) - (W : ℝ) / 2) ((H : ℝ) / 2 - (row : ℝ)) =
      (col, row) := by
  unfold mapToPixel
  rw [show (col : ℝ) - (W : ℝ) / 2 + (W : ℝ) / 2 = (col : ℝ) by ring,
    show (H : ℝ) / 2 - ((H : ℝ) / 2 - (row : ℝ)) = (row : ℝ) by ring,
    goRound_intCast, goRound_intCast]

/-- Witness for `mapToPixel_roundtrip`: pixel `(0, 0)` on a 1×1 canvas. -/
theorem mapToPixel_roundtrip_witness :
    (0 : ℤ) ≤ 0 ∧ (0 : ℤ) < 1 ∧
    mapToPixel 1 1 (((0 : ℤ) : ℝ) - ((1 : ℤ) : ℝ) / 2)
      (((1 : ℤ) : ℝ) / 2 - ((0 : ℤ) : ℝ)) = (0, 0) :=
  ⟨by decide, by decide, mapToPixel_roundtrip 1 1 0 0 (by decide) (by decide)
    (by decide) (by decide)⟩

/-- C7: stroking a segment whose endpoints coincide produces exactly the
same pixel buffer as stamping a single disc of radius `width / 2` at that
point — the `dist == 0` branch stamps once and returns. -/
theorem drawSegment_degenerate {C : Type} (W H : ℤ) (x0 y0 width : ℝ)
    (col : C) (buf : ℤ × ℤ → C) :
    drawSegmentBuf W H x0 y0 x0 y0 width col buf =
      stampDiscBuf W H x0 y0 (width / 2) col buf := by
  have h : drawSegmentStamps x0 y0 x0 y0 = [(x0, y0)] := by
    unfold drawSegmentStamps
    simp [sub_self, Real.sqrt_zero]
  unfold drawSegmentBuf
  rw [h, List.foldl_cons, List.foldl_nil]

/-- C2: for a segment of positive Euclidean distance `dist`, `drawSegment`
uses `steps = ⌈dist⌉ + 1` and stamps at exactly `steps + 1` parametric
points `i / steps`, `0 ≤ i ≤ steps`, along the segment; the sample at
`i = 0` is exactly `A` and the sample at `i = steps` is exactly `B`. -/
theorem drawSegment_samples (x0 y0 x1 y1 : ℝ) (steps : ℤ)
    (h : 0 < Real.sqrt ((x1 - x0) * (x1 - x0) + (y1 - y0) * (y1 - y0)))
    (hsteps : steps =
      ⌈Real.sqrt ((x1 - x0) * (x1 - x0) + (y1 - y0) * (y1 - y0))⌉ + 1) :
    ((drawSegmentStamps x0 y0 x1 y1).length : ℤ) = steps + 1 ∧
    (∀ i : ℕ, (i : ℤ) ≤ steps →
      (drawSegmentStamps x0 y0 x1 y1)[i]? =
        some (x0 + ((i : ℝ) / (steps : ℝ)) * (x1 - x0),
              y0 + ((i : ℝ) / (steps : ℝ)) * (y1 - y0))) ∧
    (drawSegmentStamps x0 y0 x1 y1)[0]? = some (x0, y0) ∧
    (drawSegmentStamps x0 y0 x1 y1)[steps.toNat]? = some (x1, y1) := by
  have hne : Real.sqrt ((x1 - x0) * (x1 - x0) + (y1 - y0) * (y1 - y0)) ≠ 0 :=
    ne_of_gt h
  have hceil : 0 < ⌈Real.sqrt ((x1 - x0) * (x1 - x0) + (y1 - y0) * (y1 - y0))⌉ :=
    Int.ceil_pos.mpr h
  have hsp : 2 ≤ steps := by omega
  have hlist : drawSegmentStamps x0 y0 x1 y1 =
      (List.range (steps + 1).toNat).map fun (i : ℕ) =>
        (x0 + ((i : ℝ) / (steps : ℝ)) * (x1 - x0),
         y0 + ((i : ℝ) / (steps : ℝ)) * (y1 - y0)) := by
    unfold drawSegmentStamps
    rw [if_neg hne, ← hsteps]
  have hget : ∀ i : ℕ, (i : ℤ) ≤ steps →
      (drawSegmentStamps x0 y0 x1 y1)[i]? =
        some (x0 + ((i : ℝ) / (steps : ℝ)) * (x1 - x0),
              y0 + ((i : ℝ) / (steps : ℝ)) * (y1 - y0)) := by
    intro i hi
    rw [hlist, List.getElem?_map, List.getElem?_range (by omega)]
    rfl
  refine ⟨?_, hget, ?_, ?_⟩
  · rw [hlist, List.length_map, List.length_range]
    omega
  · have h0 := hget 0 (by omega)
    rw [h0]
    norm_num
  · have hs := hget steps.toNat (by omega)
    rw [hs]
    have hcast : ((steps.toNat : ℕ) : ℝ) = (steps : ℝ) := by
      rw [show ((steps.toNat : ℕ) : ℝ) = ((steps.toNat : ℤ) : ℝ) by push_cast; ring,
        Int.toNat_of_nonneg (by omega)]
    have hdiv : ((steps.toNat : ℕ) : ℝ) / (steps : ℝ) = 1 := by
      rw [hcast, div_self (by exact_mod_cast (by omega : steps ≠ 0))]
    rw [hdiv]
    norm_num

/-- Witness for `drawSegment_samples`: the segment from `(0,0)` to `(3,4)`
has distance 5, so `steps = 6`. -/
theorem drawSegment_samples_witness :
    (0 < Real.sqrt ((3 - 0) * (3 - 0) + (4 - 0) * (4 - 0) : ℝ)) ∧
    ((drawSegmentStamps 0 0 3 4).length : ℤ) = 6 + 1 ∧
    (drawSegmentStamps 0 0 3 4)[0]? = some (0, 0) ∧
    (drawSegmentStamps 0 0 3 4)[(6 : ℤ).toNat]? = some (3, 4) := by
  have hsq : Real.sqrt ((3 - 0) * (3 - 0) + (4 - 0) * (4 - 0) : ℝ) = 5 := by
    rw [show ((3 - 0) * (3 - 0) + (4 - 0) * (4 - 0) : ℝ) = 5 ^ 2 by norm_num,
      Real.sqrt_sq (by norm_num)]
  have hpos : 0 < Real.sqrt ((3 - 0) * (3 - 0) + (4 - 0) * (4 - 0) : ℝ) := by
    rw [hsq]; norm_num
  have hst : (6 : ℤ) =
      ⌈Real.sqrt ((3 - 0) * (3 - 0) + (4 - 0) * (4 - 0) : ℝ)⌉ + 1 := by
    rw [hsq]
    norm_num
  obtain ⟨hlen, _, hhead, hlast⟩ := drawSegment_samples 0 0 3 4 6 hpos hst
  exact ⟨hpos, hlen, hhead, hlast⟩

lemma clamp_mem (v lo hi : ℤ) (h : lo ≤ hi) :
    lo ≤ clamp v lo hi ∧ clamp v lo hi ≤ hi := by
  unfold clamp
  split_ifs <;> omega

lemma stampDiscWrites_in_bounds (W H : ℤ) (hW : 1 ≤ W) (hH : 1 ≤ H)
    (cx cy r : ℝ) (p : ℤ × ℤ) (hw : stampDiscWrites W H cx cy r p) :
    0 ≤ p.1 ∧ p.1 < W ∧ 0 ≤ p.2 ∧ p.2 < H := by
  obtain ⟨-, h1, h2, h3, h4, -⟩ := hw
  have c1 := clamp_mem ((mapToPixel W H cx cy).1 - ⌈r⌉) 0 (W - 1) (by omega)
  have c2 := clamp_mem ((mapToPixel W H cx cy).1 + ⌈r⌉) 0 (W - 1) (by omega)
  have c3 := clamp_mem ((mapToPixel W H cx cy).2 - ⌈r⌉) 0 (H - 1) (by omega)
  have c4 := clamp_mem ((mapToPixel W H cx cy).2 + ⌈r⌉) 0 (H - 1) (by omega)
  omega

open Classical in
lemma stampDiscBuf_out {C : Type} (W H : ℤ) (hW : 1 ≤ W) (hH : 1 ≤ H)
    (cx cy r : ℝ) (col : C) (buf : ℤ × ℤ → C) (p : ℤ × ℤ)
    (hp : ¬(0 ≤ p.1 ∧ p.1 < W ∧ 0 ≤ p.2 ∧ p.2 < H)) :
    stampDiscBuf W H cx cy r col buf p = buf p := by
  unfold stampDiscBuf
  rw [if_neg]
  intro hw
  exact hp (stampDiscWrites_in_bounds W H hW hH cx cy r p hw)

lemma foldl_stampDiscBuf_out {C : Type} (W H : ℤ) (hW : 1 ≤ W) (hH : 1 ≤ H)
    (rr : ℝ) (col : C) (p : ℤ × ℤ)
    (hp : ¬(0 ≤ p.1 ∧ p.1 < W ∧ 0 ≤ p.2 ∧ p.2 < H)) :
    ∀ (l : List (ℝ × ℝ)) (buf : ℤ × ℤ → C),
      (l.foldl (fun b c => stampDiscBuf W H c.1 c.2 rr col b) buf) p = buf p := by
  intro l
  induction l with
  | nil => intro buf; rfl
  | cons a t ih =>
    intro buf
    rw [List.foldl_cons, ih, stampDiscBuf_out W H hW hH a.1 a.2 rr col buf p hp]

/-- C4: on a canvas with `W ≥ 1` and `H ≥ 1` every pixel write of
`stampDisc` — and hence of every stroked segment — lands in
`[0, W) × [0, H)`: the `⌈r⌉`-radius bounding box is clamped to the canvas
before any write, and a pixel of the clamped box is written iff the squared
distance of its `+0.5`-offset center from the disc's pixel-space center is
at most `r * r`. -/
theorem stampDisc_writes_clamped {C : Type} (W H : ℤ) (hW : 1 ≤ W)
    (hH : 1 ≤ H) :
    (∀ (cx cy r : ℝ) (p : ℤ × ℤ), stampDiscWrites W H cx cy r p →
      0 ≤ p.1 ∧ p.1 < W ∧ 0 ≤ p.2 ∧ p.2 < H) ∧
    (∀ (x0 y0 x1 y1 width : ℝ) (col : C) (buf : ℤ × ℤ → C) (p : ℤ × ℤ),
      ¬(0 ≤ p.1 ∧ p.1 < W ∧ 0 ≤ p.2 ∧ p.2 < H) →
      drawSegmentBuf W H x0 y0 x1 y1 width col buf p = buf p) ∧
    (∀ (cx cy r : ℝ) (p : ℤ × ℤ), 0 < r →
      clamp ((mapToPixel W H cx cy).1 - ⌈r⌉) 0 (W - 1) ≤ p.1 →
      p.1 ≤ clamp ((mapToPixel W H cx cy).1 + ⌈r⌉) 0 (W - 1) →
      clamp ((mapToPixel W H cx cy).2 - ⌈r⌉) 0 (H - 1) ≤ p.2 →
      p.2 ≤ clamp ((mapToPixel W H cx cy).2 + ⌈r⌉) 0 (H - 1) →
      (stampDiscWrites W H cx cy r p ↔
        (((p.1 - (mapToPixel W H cx cy).1 : ℤ) : ℝ) + 0.5) *
            (((p.1 - (mapToPixel W H cx cy).1 : ℤ) : ℝ) + 0.5) +
          (((p.2 - (mapToPixel W H cx cy).2 : ℤ) : ℝ) + 0.5) *
            (((p.2 - (mapToPixel W H cx cy).2 : ℤ) : ℝ) + 0.5) ≤ r * r)) := by
  refine ⟨fun cx cy r p hw => stampDiscWrites_in_bounds W H hW hH cx cy r p hw,
    ?_, ?_⟩
  · intro x0 y0 x1 y1 width col buf p hp
    unfold drawSegmentBuf
    exact foldl_stampDiscBuf_out W H hW hH (width / 2) col p hp
      (drawSegmentStamps x0 y0 x1 y1) buf
  · intro cx cy r p hr b1 b2 b3 b4
    unfold stampDiscWrites
    constructor
    · intro hw
      exact hw.2.2.2.2.2
    · intro hd
      exact ⟨hr, b1, b2, b3, b4, hd⟩

/-- Witness for `stampDisc_writes_clamped`: on a 1×1 canvas the
out-of-bounds pixel `(5, 5)` is untouched by a stroked segment. -/
theorem stampDisc_writes_clamped_witness :
    (1 : ℤ) ≤ 1 ∧
    drawSegmentBuf 1 1 0 0 3 4 2 true (fun _ => false) (5, 5) =
      (fun (_ : ℤ × ℤ) => false) ((5 : ℤ), (5 : ℤ)) :=
  ⟨by decide,
   (stampDisc_writes_clamped (C := Bool) 1 1 (by decide) (by decide)).2.1
     0 0 3 4 2 true (fun _ => false) (5, 5) (by decide)⟩

/-- C8: `EndFill` with filling inactive or fewer than 3 recorded vertices
leaves the canvas unchanged and discards the path: afterwards `filling`
is false and the fill path is empty. -/
theorem EndFill_noop {C : Type} (t : TurtleState C)
    (h : t.filling = false ∨ t.fillPath.length < 3) :
    (EndFill t).canvas = t.canvas ∧ (EndFill t).filling = false ∧
    (EndFill t).fillPath = [] := by
  unfold EndFill
  rw [if_pos h]
  exact ⟨rfl, rfl, rfl⟩

/-- Witness for `EndFill_noop`: a turtle that is not filling. -/
theorem EndFill_noop_witness :
    (sampleTurtle.filling = false ∨ sampleTurtle.fillPath.length < 3) ∧
    (EndFill sampleTurtle).canvas = sampleTurtle.canvas ∧
    (EndFill sampleTurtle).filling = false ∧
    (EndFill sampleTurtle).fillPath = [] :=
  ⟨Or.inl rfl, EndFill_noop sampleTurtle (Or.inl rfl)⟩

lemma Forward_fields {C : Type} (t : TurtleState C) (d : ℝ) :
    framePreserved t (Forward t d) ∧
    (Forward t d).headingDeg = t.headingDeg ∧
    (t.penDown = false → (Forward t d).canvas = t.canvas) ∧
    (t.filling = false → (Forward t d).fillPath = t.fillPath) ∧
    (t.filling = true → ∃ q, (Forward t d).fillPath = t.fillPath ++ [q]) := by
  unfold Forward recordFillVertex framePreserved
  by_cases hp : t.penDown = true <;> by_cases hf : t.filling = true <;>
    simp [hp, hf]

lemma GoTo_fields {C : Type} (t : TurtleState C) (a b : ℝ) :
    framePreserved t (GoTo t a b) ∧
    (GoTo t a b).headingDeg = t.headingDeg ∧
    (t.penDown = false → (GoTo t a b).canvas = t.canvas) ∧
    (t.filling = false → (GoTo t a b).fillPath = t.fillPath) ∧
    (t.filling = true → ∃ q, (GoTo t a b).fillPath = t.fillPath ++ [q]) := by
  unfold GoTo recordFillVertex framePreserved
  by_cases hp : t.penDown = true <;> by_cases hf : t.filling = true <;>
    simp [hp, hf]

lemma Left_fields {C : Type} (t : TurtleState C) (a : ℝ) :
    framePreserved t (Left t a) ∧ (Left t a).x = t.x ∧ (Left t a).y = t.y ∧
    (Left t a).canvas = t.canvas ∧ (Left t a).fillPath = t.fillPath :=
  ⟨⟨rfl, rfl, rfl, rfl, rfl, rfl, rfl, rfl⟩, rfl, rfl, rfl, rfl⟩

lemma shapeFrame_refl {C : Type} (t : TurtleState C) : shapeFrame t t :=
  ⟨⟨rfl, rfl, rfl, rfl, rfl, rfl, rfl, rfl⟩, fun _ => rfl⟩

lemma shapeFrame_trans {C : Type} {t u v : TurtleState C}
    (h1 : shapeFrame t u) (h2 : shapeFrame u v) : shapeFrame t v := by
  obtain ⟨⟨e1, e2, e3, e4, e5, e6, e7, e8⟩, fp1⟩ := h1
  obtain ⟨⟨g1, g2, g3, g4, g5, g6, g7, g8⟩, fp2⟩ := h2
  exact ⟨⟨g1.trans e1, g2.trans e2, g3.trans e3, g4.trans e4, g5.trans e5,
      g6.trans e6, g7.trans e7, g8.trans e8⟩,
    fun hf => (fp2 (e7.trans hf)).trans (fp1 hf)⟩

lemma shapeFrame_Forward {C : Type} (t : TurtleState C) (d : ℝ) :
    shapeFrame t (Forward t d) :=
  ⟨(Forward_fields t d).1, (Forward_fields t d).2.2.2.1⟩

lemma shapeFrame_Left {C : Type} (t : TurtleState C) (a : ℝ) :
    shapeFrame t (Left t a) :=
  ⟨(Left_fields t a).1, fun _ => (Left_fields t a).2.2.2.2⟩

lemma shapeFrame_repApply {C : Type} (f : TurtleState C → TurtleState C)
    (hf : ∀ u, shapeFrame u (f u)) :
    ∀ (n : ℕ) (t : TurtleState C), shapeFrame t (repApply f n t) := by
  intro n
  induction n with
  | zero => intro t; exact shapeFrame_refl t
  | succ m ih =>
    intro t
    exact shapeFrame_trans (hf t) (ih (f t))

lemma shapeFrame_restoreSnapshot {C : Type} {t u : TurtleState C}
    (s : Snapshot) (h : shapeFrame t u) : shapeFrame t (restoreSnapshot u s) :=
  shapeFrame_trans h ⟨⟨rfl, rfl, rfl, rfl, rfl, rfl, rfl, rfl⟩, fun _ => rfl⟩

lemma shapeFrame_side {C : Type} (d a : ℝ) (u : TurtleState C) :
    shapeFrame u (Left (Forward u d) a) :=
  shapeFrame_trans (shapeFrame_Forward u d) (shapeFrame_Left (Forward u d) a)

/-- C9: the shape helpers `Rect`, `Polygon` (with `n ≥ 3`) and `Circle`
restore the turtle's position and heading exactly (via the snapshot taken
on entry), and change none of the canvas dimensions, background, pen or
fill settings; when filling is inactive the fill path is untouched too. -/
theorem shapes_restore_state {C : Type} (t : TurtleState C) (w h side r : ℝ)
    (n : ℤ) (hn : 3 ≤ n) :
    ((Rect t w h).x = t.x ∧ (Rect t w h).y = t.y ∧
      (Rect t w h).headingDeg = t.headingDeg ∧ shapeFrame t (Rect t w h)) ∧
    ((Polygon t n side).x = t.x ∧ (Polygon t n side).y = t.y ∧
      (Polygon t n side).headingDeg = t.headingDeg ∧
      shapeFrame t (Polygon t n side)) ∧
    ((Circle t r).x = t.x ∧ (Circle t r).y = t.y ∧
      (Circle t r).headingDeg = t.headingDeg ∧
      shapeFrame t (Circle t r)) := by
  refine ⟨⟨rfl, rfl, rfl, ?_⟩, ?_, ⟨rfl, rfl, rfl, ?_⟩⟩
  · unfold Rect
    refine shapeFrame_restoreSnapshot _ ?_
    exact shapeFrame_trans (shapeFrame_Forward t w)
      (shapeFrame_trans (shapeFrame_Left _ 90)
        (shapeFrame_trans (shapeFrame_Forward _ h)
          (shapeFrame_trans (shapeFrame_Left _ 90)
            (shapeFrame_trans (shapeFrame_Forward _ w)
              (shapeFrame_trans (shapeFrame_Left _ 90)
                (shapeFrame_Forward _ h))))))
  · have hlt : ¬ n < 3 := by omega
    unfold Polygon
    rw [if_neg hlt]
    exact ⟨rfl, rfl, rfl, shapeFrame_restoreSnapshot _
      (shapeFrame_repApply _ (shapeFrame_side side (360 / (n : ℝ))) n.toNat t)⟩
  · unfold Circle
    exact shapeFrame_restoreSnapshot _ (shapeFrame_repApply _
      (shapeFrame_side _ _) _ t)

/-- Witness for `shapes_restore_state`: position restored on the sample
turtle for a unit rectangle, a triangle and a unit circle. -/
theorem shapes_restore_state_witness :
    (3 : ℤ) ≤ 3 ∧ (Rect sampleTurtle 1 1).x = sampleTurtle.x ∧
    (Polygon sampleTurtle 3 1).x = sampleTurtle.x ∧
    (Circle sampleTurtle 1).x = sampleTurtle.x :=
  ⟨by decide,
   (shapes_restore_state sampleTurtle 1 1 1 1 3 (by decide)).1.1,
   (shapes_restore_state sampleTurtle 1 1 1 1 3 (by decide)).2.1.1,
   (shapes_restore_state sampleTurtle 1 1 1 1 3 (by decide)).2.2.1⟩

/-- C10: with the pen up, `Forward`, `Backward` and `GoTo` leave the
pixel buffer unchanged; they keep the heading and all pen/fill settings,
and touch nothing but the position — except that, when filling, they
append exactly one vertex to the fill path. -/
theorem penUp_moves_only {C : Type} (t : TurtleState C) (d a b : ℝ)
    (hp : t.penDown = false) :
    ((Forward t d).canvas = t.canvas ∧
      (Forward t d).headingDeg = t.headingDeg ∧
      framePreserved t (Forward t d) ∧
      (t.filling = false → (Forward t d).fillPath = t.fillPath) ∧
      (t.filling = true → ∃ q, (Forward t d).fillPath = t.fillPath ++ [q])) ∧
    ((Backward t d).canvas = t.canvas ∧
      (Backward t d).headingDeg = t.headingDeg ∧
      framePreserved t (Backward t d) ∧
      (t.filling = false → (Backward t d).fillPath = t.fillPath) ∧
      (t.filling = true → ∃ q, (Backward t d).fillPath = t.fillPath ++ [q])) ∧
    ((GoTo t a b).canvas = t.canvas ∧
      (GoTo t a b).headingDeg = t.headingDeg ∧
      framePreserved t (GoTo t a b) ∧
      (t.filling = false → (GoTo t a b).fillPath = t.fillPath) ∧
      (t.filling = true → ∃ q, (GoTo t a b).fillPath = t.fillPath ++ [q])) := by
  obtain ⟨f1, f2, f3, f4, f5⟩ := Forward_fields t d
  obtain ⟨b1, b2, b3, b4, b5⟩ := Forward_fields t (-d)
  obtain ⟨g1, g2, g3, g4, g5⟩ := GoTo_fields t a b
  exact ⟨⟨f3 hp, f2, f1, f4, f5⟩, ⟨b3 hp, b2, b1, b4, b5⟩,
    ⟨g3 hp, g2, g1, g4, g5⟩⟩

/-- Witness for `penUp_moves_only`: the sample turtle has its pen up, and
moving it draws nothing. -/
theorem penUp_moves_only_witness :
    sampleTurtle.penDown = false ∧
    (Forward sampleTurtle 5).canvas = sampleTurtle.canvas ∧
    (Backward sampleTurtle 5).canvas = sampleTurtle.canvas ∧
    (GoTo sampleTurtle 3 4).canvas = sampleTurtle.canvas :=
  ⟨rfl, (penUp_moves_only sampleTurtle 5 3 4 rfl).1.1,
   (penUp_moves_only sampleTurtle 5 3 4 rfl).2.1.1,
   (penUp_moves_only sampleTurtle 5 3 4 rfl).2.2.1⟩

end GoTuga
